import Mathlib

/-!
Shallow embedding of the MQTT v3.1.1 codec of `src/src/mqtt.c` from the
mqtt-simple-broker repository, together with the byte-codec primitives of
`pack.h` (modelled from the spec, §4.1, since `pack.c` is not among the
sources) and the event-loop cycle declared in `src/src/network.h` (whose
implementation, `network.c`, is also absent and is modelled from the
spec, §4.6).

Machine integers are modelled as `Nat` with explicit reductions where the
C width matters: `% 256` for `uint8_t`, `% 65536` for `uint16_t`, and
`% 2 ^ 64` for `size_t` wrap-around subtraction.  Reads past the end of a
buffer — undefined behaviour in the C sources, which never bounds-check —
are modelled as `none`.
-/

namespace MqttBroker

/-- MQTT v3.1.1: the Remaining Length field of the fixed header occupies at
most 4 bytes (`MAX_LEN_BYTES` in `src/src/mqtt.c`). -/
def MAX_LEN_BYTES : Nat := 4

/-- Loop body of `mqtt_encode_length` (`src/src/mqtt.c`): a do-while that
each round checks `bytes + 1 > MAX_LEN_BYTES` (returning the count written
so far if it fails), emits `len % 128` with the high bit set when more
digits remain, and continues while `len > 0`.  Returns the bytes written
to `buf` together with the C function's `int` return value. -/
def mqtt_encode_length_go (len bytes : Nat) (acc : List Nat) : List Nat × Nat :=
  if MAX_LEN_BYTES < bytes + 1 then (acc, bytes)
  else
    let d := len % 128
    if h : 0 < len / 128 then
      mqtt_encode_length_go (len / 128) (bytes + 1) (acc ++ [d ||| 128])
    else
      (acc ++ [d], bytes + 1)
termination_by len
decreasing_by omega

/-- `mqtt_encode_length` (`src/src/mqtt.c`, lines 39-52): encode a
Remaining Length; result is (bytes written, return value). -/
def mqtt_encode_length (len : Nat) : List Nat × Nat :=
  mqtt_encode_length_go len 0 []

/-- Loop of `mqtt_decode_length` (`src/src/mqtt.c`, lines 61-72): consume
bytes while the high (continuation) bit is set, accumulating
`value += (c & 127) * multiplier` with `multiplier *= 128`.  The C code has
no bound on the number of length bytes (the source carries a TODO for the
`multiplier` overflow); running off the end of the buffer (undefined
behaviour in C) is `none`.  The `int` multiplier and `unsigned long long`
value are exact `Nat`s here: the first C overflow (UB on `multiplier`)
would occur from the 6th length byte on, and every theorem below stays
within 5 bytes.  Returns (value, bytes consumed, rest of buffer). -/
def mqtt_decode_length_go : List Nat → Nat → Nat → Nat → Option (Nat × Nat × List Nat)
  | [], _, _, _ => none
  | b :: rest, multiplier, value, consumed =>
    let value2 := value + b % 128 * multiplier
    if 128 ≤ b % 256 then
      mqtt_decode_length_go rest (multiplier * 128) value2 (consumed + 1)
    else
      some (value2, consumed + 1, rest)

/-- `mqtt_decode_length` (`src/src/mqtt.c`, lines 61-72) over a byte list. -/
def mqtt_decode_length (buf : List Nat) : Option (Nat × Nat × List Nat) :=
  mqtt_decode_length_go buf 1 0 0

/-- The base-128 digit string that `mqtt_encode_length` emits for `len`
when the 4-byte cut-off is not hit: low digit first, continuation bit set
on every digit but the last. -/
def remDigits (len : Nat) : List Nat :=
  if _h : len < 128 then [len]
  else (len % 128 + 128) :: remDigits (len / 128)
termination_by len
decreasing_by omega

theorem remDigits_length_pos (len : Nat) : 0 < (remDigits len).length := by
  rw [remDigits]
  split <;> simp

theorem lor_sets_high_bit : ∀ d : Fin 128, (d : Nat) ||| 128 = (d : Nat) + 128 := by
  decide

theorem mqtt_encode_length_go_eq (len : Nat) :
    ∀ bytes acc, bytes + (remDigits len).length ≤ MAX_LEN_BYTES →
      mqtt_encode_length_go len bytes acc =
        (acc ++ remDigits len, bytes + (remDigits len).length) := by
  induction len using Nat.strong_induction_on with
  | _ len ih =>
    intro bytes acc h
    by_cases hl : len < 128
    · rw [remDigits, dif_pos hl] at h ⊢
      rw [mqtt_encode_length_go, if_neg (by simp [MAX_LEN_BYTES] at h ⊢; omega),
        dif_neg (by omega)]
      simp [Nat.mod_eq_of_lt hl]
    · rw [remDigits, dif_neg hl] at h ⊢
      have hpos := remDigits_length_pos (len / 128)
      rw [mqtt_encode_length_go, if_neg (by simp [MAX_LEN_BYTES] at h ⊢; omega),
        dif_pos (by omega)]
      have hb : len % 128 ||| 128 = len % 128 + 128 :=
        lor_sets_high_bit ⟨len % 128, by omega⟩
      rw [hb, ih (len / 128) (by omega) (bytes + 1) (acc ++ [len % 128 + 128])
        (by simp at h ⊢; omega)]
      simp
      omega

theorem mqtt_decode_length_go_digits (len : Nat) :
    ∀ rest multiplier value consumed,
      mqtt_decode_length_go (remDigits len ++ rest) multiplier value consumed =
        some (value + len * multiplier, consumed + (remDigits len).length, rest) := by
  induction len using Nat.strong_induction_on with
  | _ len ih =>
    intro rest m v c
    by_cases hl : len < 128
    · rw [remDigits, dif_pos hl]
      rw [List.singleton_append, mqtt_decode_length_go, if_neg (by omega)]
      simp [Nat.mod_eq_of_lt hl]
    · rw [remDigits, dif_neg hl]
      rw [List.cons_append, mqtt_decode_length_go, if_pos (by omega)]
      have e1 : (len % 128 + 128) % 128 = len % 128 := by omega
      rw [e1, ih (len / 128) (by omega) rest (m * 128) (v + len % 128 * m) (c + 1)]
      have key : len % 128 + 128 * (len / 128) = len := Nat.mod_add_div len 128
      have e2 : v + len % 128 * m + len / 128 * (m * 128) = v + len * m := by
        conv_rhs => rw [← key]
        ring
      rw [e2]
      simp
      omega

theorem remDigits_length_le : ∀ (k len : Nat), 0 < k → len < 128 ^ k →
    (remDigits len).length ≤ k := by
  intro k
  induction k with
  | zero => omega
  | succ k ihk =>
    intro len _ hlen
    rw [remDigits]
    by_cases hl : len < 128
    · rw [dif_pos hl]; simp
    · rw [dif_neg hl]
      have hk : 0 < k := by
        rcases Nat.eq_zero_or_pos k with h0 | h0
        · subst h0; simp [pow_succ] at hlen; omega
        · exact h0
      have hdiv : len / 128 < 128 ^ k := by
        have : len < 128 ^ k * 128 := by rw [← pow_succ]; exact hlen
        omega
      have := ihk (len / 128) hk hdiv
      simp
      omega

/-- Claim C1: for every Remaining Length value L in [0, 268435455],
decoding the bytes produced by `mqtt_encode_length` L with
`mqtt_decode_length` yields L again (consuming exactly the bytes the
encoder reported), and the encoding occupies between 1 and 4 bytes. -/
theorem remaining_length_roundtrip (L : Nat) (h : L ≤ 268435455) :
    mqtt_decode_length (mqtt_encode_length L).1 =
      some (L, (mqtt_encode_length L).2, []) ∧
    1 ≤ (mqtt_encode_length L).1.length ∧
    (mqtt_encode_length L).1.length ≤ 4 ∧
    (mqtt_encode_length L).2 = (mqtt_encode_length L).1.length := by
  have hpow : (128 : Nat) ^ 4 = 268435456 := by norm_num
  have hlen : (remDigits L).length ≤ 4 :=
    remDigits_length_le 4 L (by omega) (by omega)
  have henc : mqtt_encode_length L = (remDigits L, (remDigits L).length) := by
    unfold mqtt_encode_length
    have := mqtt_encode_length_go_eq L 0 [] (by simpa [MAX_LEN_BYTES] using hlen)
    simpa using this
  have hdec := mqtt_decode_length_go_digits L [] 1 0 0
  rw [List.append_nil] at hdec
  rw [henc]
  refine ⟨?_, remDigits_length_pos L, hlen, rfl⟩
  unfold mqtt_decode_length
  simpa using hdec

/-- Witness for C1 at the largest encodable value. -/
theorem remaining_length_roundtrip_witness :
    mqtt_decode_length (mqtt_encode_length 268435455).1 =
      some (268435455, (mqtt_encode_length 268435455).2, []) ∧
    1 ≤ (mqtt_encode_length 268435455).1.length ∧
    (mqtt_encode_length 268435455).1.length ≤ 4 ∧
    (mqtt_encode_length 268435455).2 = (mqtt_encode_length 268435455).1.length :=
  remaining_length_roundtrip 268435455 (Nat.le_refl _)

/-- Claim C2 (refuted; the sources keep a TODO for exactly this): on the
input `80 80 80 80 01`, whose first four bytes all carry the continuation
bit, `mqtt_decode_length` does NOT stop after the fourth byte: it consumes
a fifth length byte and returns 268435456 with no error. -/
theorem decode_length_consumes_fifth_byte :
    mqtt_decode_length [128, 128, 128, 128, 1] = some (268435456, 5, []) := by
  decide

/-- Claim C7 (refuted): for 268435456 (one past the largest 4-byte value)
`mqtt_encode_length` does not fail: it silently returns the truncated
4-byte string `80 80 80 80` — every byte still carrying the continuation
bit, so no decoder can terminate on it — with the ordinary-looking return
value 4. -/
theorem encode_length_truncates_silently :
    mqtt_encode_length 268435456 = ([128, 128, 128, 128], 4) ∧
    mqtt_decode_length [128, 128, 128, 128] = none := by
  constructor
  · unfold mqtt_encode_length
    rw [mqtt_encode_length_go]; norm_num [MAX_LEN_BYTES]
    rw [mqtt_encode_length_go]; norm_num [MAX_LEN_BYTES]
    rw [mqtt_encode_length_go]; norm_num [MAX_LEN_BYTES]
    rw [mqtt_encode_length_go]; norm_num [MAX_LEN_BYTES]
    rw [mqtt_encode_length_go]; norm_num [MAX_LEN_BYTES]
  · decide

/-- Modelled from the spec (§4.1, the `pack.h` primitives; `pack.c` is not
under src/): read an unsigned 8-bit integer and advance the cursor; a read
past the end of the buffer is `none`. -/
def unpack_u8 : List Nat → Option (Nat × List Nat)
  | [] => none
  | b :: rest => some (b % 256, rest)

/-- Modelled from the spec (§4.1): read an unsigned 16-bit integer in
network byte order and advance the cursor. -/
def unpack_u16 : List Nat → Option (Nat × List Nat)
  | hi :: lo :: rest => some (hi % 256 * 256 + lo % 256, rest)
  | _ => none

/-- Modelled from the spec (§4.1): read a fixed-length byte sequence and
advance the cursor. -/
def unpack_bytes (n : Nat) (buf : List Nat) : Option (List Nat × List Nat) :=
  if n ≤ buf.length then some (buf.take n, buf.drop n) else none

/-- Wrap-around subtraction on `uint16_t`: the value of `a - b` computed
in C unsigned arithmetic and stored back into a 16-bit field. -/
def wsub16 (a b : Nat) : Nat :=
  (a + (65536 - b % 65536)) % 65536

/-- Wrap-around subtraction on `size_t` (64-bit): the value of `a -= b`
on the unsigned remaining-bytes counters of `src/src/mqtt.c`. -/
def wsub64 (a b : Nat) : Nat :=
  (a + (2 ^ 64 - b % 2 ^ 64)) % 2 ^ 64

/-- `AT_MOST_ONCE` — QoS 0 (value from the spec's glossary; `mqtt.h` is
not under src/). -/
def AT_MOST_ONCE : Nat := 0

/-- The fields of `struct mqtt_publish` that `unpack_mqtt_publish` fills
in (`src/src/mqtt.c`). -/
structure MqttPublish where
  pkt_id : Nat
  topiclen : Nat
  topic : List Nat
  payloadlen : Nat
  payload : List Nat
deriving DecidableEq, Repr

/-- `unpack_mqtt_publish` (`src/src/mqtt.c`, lines 146-182).  `raw` is the
buffer starting right after the fixed-header type byte; `qos` comes from
the fixed-header bits.  The C local `uint16_t message_len = len` truncates
the Remaining Length to 16 bits before both subtractions, which are
likewise performed on the 16-bit field.  Returns the packet and the
function's return value `len`. -/
def unpack_mqtt_publish (qos : Nat) (raw : List Nat) : Option (MqttPublish × Nat) := do
  let (len, _, raw) ← mqtt_decode_length raw
  let (topic_len, raw) ← unpack_u16 raw
  let (topic, raw) ← unpack_bytes topic_len raw
  let message_len := len % 65536
  let (pkt_id, message_len, raw) ←
    if AT_MOST_ONCE < qos then do
      let (pid, raw) ← unpack_u16 raw
      pure (pid, wsub16 message_len 2, raw)
    else
      pure (0, message_len, raw)
  let message_len := wsub16 message_len (2 + topic_len)
  let (payload, _) ← unpack_bytes message_len raw
  pure ({ pkt_id, topiclen := topic_len, topic, payloadlen := message_len,
          payload }, len)

/-- Claim C4 (refuted): a QoS-0 PUBLISH whose Remaining Length is 65540
(well under the 2 MiB packet-size limit) with an empty topic is decoded
with payload length `(65540 % 65536) - 2 = 2`, not the
`65540 - (2 + 0) = 65538` remaining bytes the claim requires: the
`uint16_t message_len = len` truncation loses every bit above 2^16. -/
theorem publish_payload_len_truncated :
    (unpack_mqtt_publish 0 [132, 128, 4, 0, 0, 9, 9]).map
        (fun p => (p.1.payloadlen, p.1.payload, p.2)) =
      some (2, [9, 9], 65540) ∧
    65540 - (2 + 0) ≠ 2 := by
  constructor
  · decide
  · decide

/-- Modelled from the spec (§4.2: connect-flags bit layout, bit 2 = will;
`mqtt.h`, which declares the bit-field, is not under src/). -/
def connect_bits_will (byte : Nat) : Nat := byte / 4 % 2

/-- Modelled from the spec (§4.2: connect-flags bit layout, bit 7 =
username). -/
def connect_bits_username (byte : Nat) : Nat := byte / 128 % 2

/-- Modelled from the spec (§4.2: connect-flags bit layout, bit 6 =
password). -/
def connect_bits_password (byte : Nat) : Nat := byte / 64 % 2

/-- Modelled from the spec (§4.2: connect-flags bit layout, bit 0 =
reserved, MUST be 0). -/
def connect_bits_reserved (byte : Nat) : Nat := byte % 2

/-- The payload part of `struct mqtt_connect` (`mqtt.h`'s nested
`payload` struct, whose fields `unpack_mqtt_connect` fills in). -/
structure ConnectPayload where
  keepalive : Nat
  client_id : List Nat
  will_topic : List Nat
  will_message : List Nat
  username : List Nat
  password : List Nat
deriving DecidableEq, Repr

/-- `struct mqtt_connect` as filled in by `unpack_mqtt_connect`: the
variable-header flags byte and the payload. -/
structure MqttConnect where
  byte : Nat
  payload : ConnectPayload
deriving DecidableEq, Repr

/-- The payload reads of `unpack_mqtt_connect` (`src/src/mqtt.c`, lines
100-141): keepalive, client-id length and client-id (skipped when the
length is 0), then will topic/message, username and password when the
corresponding flag bit of `byte` is set. -/
def unpack_connect_payload (byte : Nat) (raw : List Nat) :
    Option (ConnectPayload × List Nat) := do
  let (keepalive, raw) ← unpack_u16 raw
  let (cid_len, raw) ← unpack_u16 raw
  let (client_id, raw) ←
    if 0 < cid_len then unpack_bytes cid_len raw
    else pure ([], raw)
  let (will_topic, will_message, raw) ←
    if connect_bits_will byte = 1 then do
      let (will_topic_len, raw) ← unpack_u16 raw
      let (wt, raw) ← unpack_bytes will_topic_len raw
      let (will_message_len, raw) ← unpack_u16 raw
      let (wm, raw) ← unpack_bytes will_message_len raw
      pure (wt, wm, raw)
    else
      pure ([], [], raw)
  let (username, raw) ←
    if connect_bits_username byte = 1 then do
      let (username_len, raw) ← unpack_u16 raw
      unpack_bytes username_len raw
    else
      pure ([], raw)
  let (password, raw) ←
    if connect_bits_password byte = 1 then do
      let (password_len, raw) ← unpack_u16 raw
      unpack_bytes password_len raw
    else
      pure ([], raw)
  pure ({ keepalive, client_id, will_topic, will_message, username,
          password }, raw)

/-- `unpack_mqtt_connect` (`src/src/mqtt.c`, lines 77-144).  `raw` is the
buffer starting right after the fixed-header type byte (`init` in the C).
The C code decodes the Remaining Length (used only as the return value)
and then jumps to `raw = init + 8` — a fixed offset, with no check of the
protocol name, protocol level or reserved flag bit (the source comments
that it ignores them) — reading the connect-flags byte and then the
payload fields from there. -/
def unpack_mqtt_connect (raw : List Nat) : Option (MqttConnect × Nat) := do
  let (len, _, _) ← mqtt_decode_length raw
  let (byte, raw) ← unpack_u8 (raw.drop 8)
  let (payload, _) ← unpack_connect_payload byte raw
  pure ({ byte, payload }, len)

/-- Claim C5 (refuted): a CONNECT whose flags byte 0x03 has the reserved
bit set, whose protocol level is the unknown value 9, and whose client-id
is missing (length 0 with clean-session semantics ignored) is decoded
without any error: `unpack_mqtt_connect` validates nothing — the source
comments that it skips the protocol-name and reserved-bit checks. -/
theorem connect_no_validation :
    unpack_mqtt_connect [13, 0, 4, 77, 81, 84, 84, 9, 3, 0, 60, 0, 0] =
      some ({ byte := 3,
              payload := { keepalive := 60, client_id := [],
                           will_topic := [], will_message := [],
                           username := [], password := [] } }, 13) ∧
    connect_bits_reserved 3 = 1 := by
  constructor
  · decide
  · decide

/-- One `(topic length, topic filter, qos)` tuple of `struct
mqtt_subscribe` (`src/src/mqtt.c`). -/
structure SubTuple where
  topic_len : Nat
  topic : List Nat
  qos : Nat
deriving DecidableEq, Repr

/-- Payload loop of `unpack_mqtt_subscribe` (`src/src/mqtt.c`, lines
207-225): `while (remaining_bytes > 0)` read a topic length, the topic
and a qos byte, decrementing the unsigned `size_t` counter
`remaining_bytes` by each declared size with wrap-around (`wsub64`).  The
C loop is bounded only by that counter; `fuel` dominates the number of
iterations possible before the buffer is exhausted, and running out of
buffer (C reads past the end) is `none`.  No check of any kind is applied
to the qos byte. -/
def mqtt_subscribe_loop (fuel : Nat) (remaining : Nat) (raw : List Nat)
    (acc : List SubTuple) : Option (List SubTuple × List Nat) :=
  match fuel with
  | 0 => none
  | fuel + 1 =>
    if remaining = 0 then some (acc, raw)
    else do
      let (topic_len, raw) ← unpack_u16 raw
      let remaining := wsub64 remaining 2
      let (topic, raw) ← unpack_bytes topic_len raw
      let remaining := wsub64 remaining topic_len
      let (qos, raw) ← unpack_u8 raw
      let remaining := wsub64 remaining 1
      mqtt_subscribe_loop fuel remaining raw (acc ++ [⟨topic_len, topic, qos⟩])

/-- `unpack_mqtt_subscribe` (`src/src/mqtt.c`, lines 184-231): Remaining
Length, packet id, then the tuple loop.  Returns (packet id, tuples,
return value `len`). -/
def unpack_mqtt_subscribe (raw : List Nat) : Option (Nat × List SubTuple × Nat) := do
  let (len, _, raw) ← mqtt_decode_length raw
  let (pkt_id, raw) ← unpack_u16 raw
  let remaining := wsub64 (len % 2 ^ 64) 2
  let (tuples, _) ← mqtt_subscribe_loop (raw.length + 1) remaining raw []
  pure (pkt_id, tuples, len)

/-- Payload loop of `unpack_mqtt_unsubscribe` (`src/src/mqtt.c`, lines
255-272): as the subscribe loop but without the qos byte. -/
def mqtt_unsubscribe_loop (fuel : Nat) (remaining : Nat) (raw : List Nat)
    (acc : List (Nat × List Nat)) : Option (List (Nat × List Nat) × List Nat) :=
  match fuel with
  | 0 => none
  | fuel + 1 =>
    if remaining = 0 then some (acc, raw)
    else do
      let (topic_len, raw) ← unpack_u16 raw
      let remaining := wsub64 remaining 2
      let (topic, raw) ← unpack_bytes topic_len raw
      let remaining := wsub64 remaining topic_len
      mqtt_unsubscribe_loop fuel remaining raw (acc ++ [(topic_len, topic)])

/-- `unpack_mqtt_unsubscribe` (`src/src/mqtt.c`, lines 233-278). -/
def unpack_mqtt_unsubscribe (raw : List Nat) :
    Option (Nat × List (Nat × List Nat) × Nat) := do
  let (len, _, raw) ← mqtt_decode_length raw
  let (pkt_id, raw) ← unpack_u16 raw
  let remaining := wsub64 (len % 2 ^ 64) 2
  let (tuples, _) ← mqtt_unsubscribe_loop (raw.length + 1) remaining raw []
  pure (pkt_id, tuples, len)

/-- Claim C6 (refuted): a SUBSCRIBE carrying the requested-QoS byte 3
(not 0, 1 or 2) decodes without any error, storing qos = 3 in the tuple:
`unpack_mqtt_subscribe` applies no check to the qos byte. -/
theorem subscribe_accepts_qos3 :
    unpack_mqtt_subscribe [6, 0, 1, 0, 1, 97, 3] =
      some (1, [⟨1, [97], 3⟩], 6) ∧
    ¬ (3 = 0 ∨ 3 = 1 ∨ 3 = 2) := by
  constructor
  · decide
  · decide

/-- Claim C10: the subscribe/unsubscribe payload loops stop exactly when
the unsigned `remaining_bytes` counter reaches 0 (first and sixth
conjuncts: exhaustion is the only normal exit; second conjunct: with the
counter still nonzero the loop goes on reading, past the end of the
buffer if need be).  When a declared size exceeds the bytes actually
remaining the wrap-around subtraction produces a huge nonzero counter
(third conjunct), so the loop runs past the packet boundary: a SUBSCRIBE
with Remaining Length 3 — one payload byte after the packet id — reads
beyond both the declared packet and the whole buffer (fourth and fifth
conjuncts: the three junk bytes appended past the boundary are consumed
too), and likewise for UNSUBSCRIBE (last conjunct). -/
theorem subscribe_counter_wraparound :
    (∀ fuel raw acc, mqtt_subscribe_loop (fuel + 1) 0 raw acc = some (acc, raw)) ∧
    (∀ fuel remaining acc, remaining ≠ 0 →
        mqtt_subscribe_loop (fuel + 1) remaining [] acc = none) ∧
    wsub64 1 2 = 2 ^ 64 - 1 ∧
    unpack_mqtt_subscribe [3, 0, 1, 0, 0, 5] = none ∧
    unpack_mqtt_subscribe [3, 0, 1, 0, 0, 5, 0, 0, 6] = none ∧
    (∀ fuel raw acc, mqtt_unsubscribe_loop (fuel + 1) 0 raw acc = some (acc, raw)) ∧
    unpack_mqtt_unsubscribe [3, 0, 1, 0, 0] = none := by
  refine ⟨?_, ?_, by decide, by decide, by decide, ?_, by decide⟩
  · intro fuel raw acc
    simp [mqtt_subscribe_loop]
  · intro fuel remaining acc h
    simp [mqtt_subscribe_loop, h, unpack_u16]
  · intro fuel raw acc
    simp [mqtt_unsubscribe_loop]

/-- Witness for C10's universally quantified conjuncts at concrete
inputs. -/
theorem subscribe_counter_wraparound_witness :
    mqtt_subscribe_loop 1 0 [] [] = some ([], []) ∧
    mqtt_subscribe_loop 1 5 [] [] = none ∧
    mqtt_unsubscribe_loop 1 0 [] [] = some ([], []) :=
  ⟨subscribe_counter_wraparound.1 0 [] [],
   subscribe_counter_wraparound.2.1 0 5 [] (by decide),
   subscribe_counter_wraparound.2.2.2.2.2.1 0 [] []⟩

/-- The unpack handlers of `src/src/mqtt.c` that appear in the
`unpack_handlers` table. -/
inductive UnpackHandler where
  | connect
  | publish
  | ack
  | subscribe
  | unsubscribe
deriving DecidableEq, Repr

/-- `unpack_handlers` (`src/src/mqtt.c`, lines 305-317): the 11-entry
function-pointer table indexed by the packet-type nibble; `none` is a
NULL entry (positions 0, CONNACK = 2 and SUBACK = 9). -/
def unpack_handlers : List (Option UnpackHandler) :=
  [none, some .connect, none, some .publish, some .ack, some .ack,
   some .ack, some .ack, some .subscribe, none, some .unsubscribe]

/-- Packet-type codes used by `unpack_mqtt_packet` (values from the
spec, §3; `mqtt.h`, which defines the enum, is not under src/). -/
def DISCONNECT : Nat := 14

/-- Packet-type code PINGREQ (spec, §3). -/
def PINGREQ : Nat := 12

/-- Packet-type code PINGRESP (spec, §3). -/
def PINGRESP : Nat := 13

/-- What the dispatch of `unpack_mqtt_packet` does for a given type
nibble: inline handling, a call to a real handler, a call through a NULL
table entry, or an indexing past the end of the table (the latter two are
undefined behaviour in the C). -/
inductive DispatchOutcome where
  | inlineHeader
  | call (h : UnpackHandler)
  | nullHandler
  | outOfBounds
deriving DecidableEq, Repr

/-- Dispatch of `unpack_mqtt_packet` (`src/src/mqtt.c`, lines 319-336) on
the first byte of the fixed header: the type is the high nibble;
DISCONNECT, PINGREQ and PINGRESP are handled inline, and every other type
value indexes `unpack_handlers` with no range or NULL check. -/
def unpack_mqtt_packet_dispatch (firstByte : Nat) : DispatchOutcome :=
  let type := firstByte % 256 / 16
  if type = DISCONNECT ∨ type = PINGREQ ∨ type = PINGRESP then
    .inlineHeader
  else
    match unpack_handlers.get? type with
    | some (some h) => .call h
    | some none => .nullHandler
    | none => .outOfBounds

/-- Claim C3 (refuted): the defined packet types CONNACK (first byte
0x20) and SUBACK (0x90) dispatch to NULL table entries, UNSUBACK (0xB0)
and the reserved type 15 (0xF0) index past the end of the 11-entry table,
and the reserved type 0 (0x00) also hits a NULL entry — there is no typed
UnknownPacketType error anywhere in the code. -/
theorem dispatch_null_and_out_of_bounds :
    unpack_mqtt_packet_dispatch 0x20 = .nullHandler ∧
    unpack_mqtt_packet_dispatch 0x90 = .nullHandler ∧
    unpack_mqtt_packet_dispatch 0xB0 = .outOfBounds ∧
    unpack_mqtt_packet_dispatch 0xF0 = .outOfBounds ∧
    unpack_mqtt_packet_dispatch 0x00 = .nullHandler := by
  decide

/-- A registered closure of the event loop (`struct closure` of
`src/src/network.h`, restricted to the descriptor and its identity). -/
structure EvClosure where
  fd : Nat
  closure_id : Nat
deriving DecidableEq, Repr

/-- `EPOLL_MAX_EVENTS` (`src/src/server.h`): bound on the number of ready
events a cycle of the event loop handles. -/
def EPOLL_MAX_EVENTS : Nat := 256

/-- Modelled from the spec (§4.6; `network.c`, which implements the
`evloop_wait` declared in `src/src/network.h`, is not under src/): one
cycle of the event loop waits for up to `max_events` ready events and,
for each ready descriptor, looks up its registered closure and invokes
its callback.  The cycle is represented by the list of closures invoked,
in order. -/
def evloop_wait_cycle (max_events : Nat) (closures : List EvClosure)
    (ready : List Nat) : List EvClosure :=
  (ready.take max_events).filterMap
    (fun fd => closures.find? (fun c => c.fd == fd))

/-- Claim C8: a cycle of the event loop handles at most
`EPOLL_MAX_EVENTS` = 256 ready events, and every ready descriptor within
that bound that has a registered closure gets that closure's callback
invoked. -/
theorem evloop_cycle_bounded (closures : List EvClosure) (ready : List Nat) :
    (evloop_wait_cycle EPOLL_MAX_EVENTS closures ready).length ≤ EPOLL_MAX_EVENTS ∧
    EPOLL_MAX_EVENTS = 256 ∧
    ∀ fd, fd ∈ ready.take EPOLL_MAX_EVENTS →
      ∀ c, closures.find? (fun x => x.fd == fd) = some c →
        c ∈ evloop_wait_cycle EPOLL_MAX_EVENTS closures ready := by
  refine ⟨?_, rfl, ?_⟩
  · calc (evloop_wait_cycle EPOLL_MAX_EVENTS closures ready).length
        ≤ (ready.take EPOLL_MAX_EVENTS).length := List.length_filterMap_le _ _
      _ ≤ EPOLL_MAX_EVENTS := by simp [List.length_take]
  · intro fd hfd c hc
    exact List.mem_filterMap.mpr ⟨fd, hfd, hc⟩

/-- Witness for C8 on a loop with one registered closure and one ready
descriptor. -/
theorem evloop_cycle_bounded_witness :
    (evloop_wait_cycle EPOLL_MAX_EVENTS [⟨3, 7⟩] [3]).length ≤ EPOLL_MAX_EVENTS ∧
    (⟨3, 7⟩ : EvClosure) ∈ evloop_wait_cycle EPOLL_MAX_EVENTS [⟨3, 7⟩] [3] :=
  ⟨(evloop_cycle_bounded [⟨3, 7⟩] [3]).1,
   (evloop_cycle_bounded [⟨3, 7⟩] [3]).2.2 3 (by decide) ⟨3, 7⟩ (by decide)⟩

/-- Where the connect-flags byte actually sits in a CONNECT packet,
counted from right after the fixed-header type byte: `n` bytes of
Remaining Length varint, the 2-byte protocol-name length, the `m`
protocol-name bytes, and the protocol-level byte (variable-header grammar
modelled from the spec, §4.2). -/
def connect_flags_offset (n m : Nat) : Nat := n + (2 + m) + 1

/-- Claim C9: `unpack_mqtt_connect` takes the connect-flags byte from the
fixed offset 8 of the buffer that follows the type byte, whatever the
rest of the input holds (first conjunct: whenever decoding succeeds, the
flags field is the byte at offset 8); for MQTT protocol names (4 bytes,
or 6 for the legacy one) and varint widths 1-4 the true flags position
`connect_flags_offset` equals 8 exactly when the Remaining Length
occupies one byte and the protocol name is 4 bytes long (second
conjunct). -/
theorem connect_flags_fixed_offset :
    (∀ raw pkt len, unpack_mqtt_connect raw = some (pkt, len) →
        ∃ b rest, raw.drop 8 = b :: rest ∧ pkt.byte = b % 256) ∧
    (∀ n m, 1 ≤ n → n ≤ 4 → (m = 4 ∨ m = 6) →
        (connect_flags_offset n m = 8 ↔ n = 1 ∧ m = 4)) := by
  constructor
  · intro raw pkt len h
    unfold unpack_mqtt_connect at h
    rw [Option.bind_eq_bind, Option.bind_eq_some] at h
    obtain ⟨⟨len0, cons0, rest0⟩, -, h⟩ := h
    dsimp only at h
    rw [Option.bind_eq_bind, Option.bind_eq_some] at h
    obtain ⟨⟨byte, raw1⟩, hu8, h⟩ := h
    dsimp only at h
    rw [Option.bind_eq_bind, Option.bind_eq_some] at h
    obtain ⟨⟨payload0, rest1⟩, -, h⟩ := h
    simp only [Option.pure_def, Option.some.injEq, Prod.mk.injEq] at h
    cases hdrop : raw.drop 8 with
    | nil => rw [hdrop] at hu8; simp [unpack_u8] at hu8
    | cons b rest =>
      rw [hdrop] at hu8
      simp only [unpack_u8, Option.some.injEq, Prod.mk.injEq] at hu8
      refine ⟨b, rest, rfl, ?_⟩
      rw [← h.1, ← hu8.1]
  · intro n m h1 h4 hm
    unfold connect_flags_offset
    rcases hm with hm | hm <;> subst hm <;> omega

/-- Witness for C9 at a concrete CONNECT buffer (with a 2-byte varint and
a bogus 6-byte region before offset 8, the byte decoded into the flags
field is still the one at offset 8) and at the parameters n = 1, m = 4. -/
theorem connect_flags_fixed_offset_witness :
    (∃ b rest,
        ([129, 1, 0, 4, 77, 81, 84, 84, 3, 0, 60, 0, 0] : List Nat).drop 8 =
          b :: rest ∧
        ({ byte := 3,
           payload := { keepalive := 60, client_id := [], will_topic := [],
                        will_message := [], username := [],
                        password := [] } } : MqttConnect).byte = b % 256) ∧
    (connect_flags_offset 1 4 = 8 ↔ 1 = 1 ∧ 4 = 4) :=
  ⟨connect_flags_fixed_offset.1 [129, 1, 0, 4, 77, 81, 84, 84, 3, 0, 60, 0, 0]
      { byte := 3,
        payload := { keepalive := 60, client_id := [], will_topic := [],
                     will_message := [], username := [], password := [] } } 129
      (by decide),
   connect_flags_fixed_offset.2 1 4 (by decide) (by decide) (Or.inl rfl)⟩

end MqttBroker
